import Mathlib

/-
Verification of the USN-journal parser (src/sift/files/parseusn/parseusn.py)
against its natural-language specification.

The byte source is modelled as a List Nat (one entry per byte, each < 256 on
real inputs).  Python byte strings are List Nat, Python text strings are
Lean String or List Char.  Machine integers are Nat / Int with explicit
two's-complement reinterpretation where the source unpacks signed fields.
-/

namespace ParseUSN

/-- Little-endian value of a byte list (struct formats I, h, i, q before sign). -/
def leNat (bs : List Nat) : Nat :=
  bs.foldr (fun b acc => b + 256 * acc) 0

/-- Big-endian value of a byte list (used by conv_time via int(hexstr, 16)). -/
def beNat (bs : List Nat) : Nat :=
  bs.foldl (fun acc b => 256 * acc + b) 0

/-- Reinterpret an unsigned value as a two's-complement signed integer of the
given bit width (struct formats h, i, q). -/
def sintOf (bits : Nat) (v : Nat) : Int :=
  if v < 2 ^ (bits - 1) then (v : Int) else (v : Int) - 2 ^ bits

/-- struct.unpack of format h (little-endian signed 16-bit). -/
def i16le (bs : List Nat) : Int := sintOf 16 (leNat bs)

/-- struct.unpack of format i (little-endian signed 32-bit). -/
def i32le (bs : List Nat) : Int := sintOf 32 (leNat bs)

/-- struct.unpack of format q (little-endian signed 64-bit). -/
def i64le (bs : List Nat) : Int := sintOf 64 (leNat bs)

/-- Clamp a (possibly negative) Python slice index to an actual list position,
exactly as Python does for s[a:b]: negative indices count from the end, and
everything is clamped to [0, length]. -/
def pyIdx (n : Nat) (i : Int) : Nat :=
  if i < 0 then (max ((n : Int) + i) 0).toNat else min i.toNat n

/-- Python slice d[a:b] on a byte string. -/
def pySlice (d : List Nat) (a b : Int) : List Nat :=
  let lo := pyIdx d.length a
  let hi := pyIdx d.length b
  (d.drop lo).take (hi - lo)

/-- Fixed-size struct.unpack argument: the slice d[a:a+len] when it really has
len bytes, none when the slice is short (struct.error in the source). -/
def bytesAt (d : List Nat) (a : Int) (len : Nat) : Option (List Nat) :=
  let s := pySlice d a (a + len)
  if s.length = len then some s else none

/-- Variable-size filename unpack, struct format built as str(len) + s.
A negative length makes an invalid struct format (struct.error); otherwise the
slice d[off:off+len] must have exactly len bytes. -/
def filenameBytes (d : List Nat) (off len : Int) : Option (List Nat) :=
  if len < 0 then none
  else
    let s := pySlice d off (off + len)
    if s.length = len.toNat then some s else none

/-- Lowercase hex digit used by binascii.hexlify. -/
def hexDigit (n : Nat) : Char :=
  if n < 10 then Char.ofNat (48 + n) else Char.ofNat (87 + n)

/-- binascii.hexlify of a byte list: two lowercase hex digits per byte. -/
def hexChars (bs : List Nat) : List Char :=
  bs.foldr (fun b acc => hexDigit (b / 16) :: hexDigit (b % 16) :: acc) []

/-- Numeric value of one hex digit, as accepted by int(s, 16).  The source only
applies this to hexlify output, which is always a valid lowercase digit; other
characters (which would raise ValueError) are given value 0. -/
def hexVal (c : Char) : Nat :=
  if 48 ≤ c.toNat ∧ c.toNat ≤ 57 then c.toNat - 48
  else if 97 ≤ c.toNat ∧ c.toNat ≤ 102 then c.toNat - 87
  else if 65 ≤ c.toNat ∧ c.toNat ≤ 70 then c.toNat - 55
  else 0

/-- int(s, 16) on a hex character list. -/
def hexToNat (cs : List Char) : Nat :=
  cs.foldl (fun acc c => 16 * acc + hexVal c) 0

/-- The decoded change record built by decode_USN_record: one field per key of
the Python dict r, in assignment order.  The time field holds the hex string
produced by binascii.hexlify of the byte-reversed raw timestamp. -/
structure ChangeRecord where
  length : Nat
  major : Int
  minor : Int
  version : String
  mft_ref : Int
  mft_ref_seq : Int
  parent_ref : Int
  parent_ref_seq : Int
  usn : Int
  time : List Char
  reason : Int
  sourceinfo : Int
  securityid : Int
  file_attrib : Int
  filename_length : Int
  filename_offset : Int
  filename : List Nat
  deriving DecidableEq, Repr

/-- Outcome of decode_USN_record: a record, None for an unrecognized major
version, struct.error (caught by the scan loop), or the TypeError raised by
the version-3 branch (not caught by the scan loop's except struct.error). -/
inductive DecodeResult where
  | ok (r : ChangeRecord)
  | unrecognized
  | structError
  | typeError
  deriving DecidableEq, Repr

/-- Run the continuation when the unpack succeeded, otherwise struct.error. -/
def req (o : Option (List Nat)) (k : List Nat → DecodeResult) : DecodeResult :=
  match o with
  | some bs => k bs
  | none => .structError

/-- Major-version-2 branch of decode_USN_record (parseusn.py lines 489-504). -/
def decodeV2 (d : List Nat) (size : Nat) (major minor : Int) : DecodeResult :=
  req (bytesAt d 8 6) fun mref =>
  req (bytesAt d 14 2) fun mseq =>
  req (bytesAt d 16 6) fun pref =>
  req (bytesAt d 22 2) fun pseq =>
  req (bytesAt d 24 8) fun usn =>
  req (bytesAt d 32 8) fun time =>
  req (bytesAt d 40 4) fun reason =>
  req (bytesAt d 44 4) fun srcinfo =>
  req (bytesAt d 48 4) fun secid =>
  req (bytesAt d 52 4) fun fattr =>
  req (bytesAt d 56 2) fun flen =>
  req (bytesAt d 58 2) fun foff =>
  req (filenameBytes d (i16le foff) (i16le flen)) fun fname =>
  .ok {
    length := size
    major := major
    minor := minor
    version := toString major ++ "." ++ toString minor
    mft_ref := i32le (mref.take 4)
    mft_ref_seq := i16le mseq
    parent_ref := i32le (pref.take 4)
    parent_ref_seq := i16le pseq
    usn := i64le usn
    time := hexChars time.reverse
    reason := i32le reason
    sourceinfo := i32le srcinfo
    securityid := i32le secid
    file_attrib := i32le fattr
    filename_length := i16le flen
    filename_offset := i16le foff
    filename := fname
  }

/-- Major-version-3 branch of decode_USN_record (parseusn.py lines 506-528).
The source evaluates struct.unpack of format QQ on d[8:24] (struct.error when
that slice is short), indexes the resulting pair with [0], and then tries to
tuple-unpack the resulting single integer into two variables, which always
raises TypeError before any record field past the header is built. -/
def decodeV3 (d : List Nat) : DecodeResult :=
  req (bytesAt d 8 16) fun _ => .typeError

/-- decode_USN_record (parseusn.py lines 479-529): dispatch on the 16-bit
major version at offset 4 after also unpacking the minor version at 6. -/
def decode_USN_record (d : List Nat) (size : Nat) : DecodeResult :=
  req (bytesAt d 4 2) fun mj =>
  req (bytesAt d 6 2) fun mn =>
  let major := i16le mj
  let minor := i16le mn
  if major = 2 then decodeV2 d size major minor
  else if major = 3 then decodeV3 d
  else .unrecognized

/-- conv_time (parseusn.py lines 531-534) reduced to the microsecond offset it
adds to datetime(1601, 1, 1): int(dt, 16) / 10. computed in double precision
and then rounded to whole microseconds by timedelta, which in Python 2.7
rounds half away from zero (round_to_long uses floor(x + 0.5) for x >= 0).
For tick counts below 2 ^ 50 the double division never moves the value across
a rounding boundary, so the result equals floor(ticks / 10 + 1 / 2). -/
def conv_time_us (cs : List Char) : Nat :=
  (hexToNat cs + 5) / 10

/-- Filename post-processing inside deflag_item (parseusn.py lines 443-447):
truncate at str.find of a double NUL (which is -1, meaning drop the last byte,
when no double NUL occurs) and then delete every remaining NUL. -/
def pyFind2 : List Nat → Int :=
  let rec go : List Nat → Nat → Int
    | b :: c :: rest, i => if b = 0 ∧ c = 0 then (i : Int) else go (c :: rest) (i + 1)
    | _, _ => -1
  fun bs => go bs 0

/-- The filename transformation of deflag_item: slice up to the find result,
then remove the NUL bytes that MS UTF-16 encoding left behind. -/
def deflag_item_filename (fn : List Nat) : List Nat :=
  (pySlice fn 0 (pyFind2 fn)).filter (fun b => b ≠ 0)

/-- FLAGS_SHORT (parseusn.py lines 56-78), the default reason-flag table. -/
def FLAGS_SHORT : List (Int × String) :=
  [(0x00, " "),
   (0x01, "data_overwritten"),
   (0x02, "data_appended"),
   (0x04, "data_truncated"),
   (0x10, "ads_data_overwritten"),
   (0x20, "ads_data_appended"),
   (0x40, "ads_data_truncated"),
   (0x100, "file_created"),
   (0x200, "file_deleted"),
   (0x400, "extended_attrib_chnaged"),
   (0x800, "access_changed"),
   (0x1000, "file_old_name"),
   (0x2000, "file_new_name"),
   (0x4000, "context_indexed_changed"),
   (0x8000, "basic_info_changed"),
   (0x10000, "hardlink_changed"),
   (0x20000, "compression_changed"),
   (0x40000, "encryption_changed"),
   (0x80000, "objid_changed"),
   (0x100000, "reparse_changed"),
   (0x200000, "ads_added_or_deleted"),
   (0x80000000, "file_closed")]

/-- Insert a key-label pair into a key-sorted list (models sorted on keys). -/
def insertPair (x : Int × String) : List (Int × String) → List (Int × String)
  | [] => [x]
  | y :: ys => if x.1 ≤ y.1 then x :: y :: ys else y :: insertPair x ys

/-- Sort a flag table by key, modelling sorted(flags.keys()) followed by the
dict lookups (dict keys are unique, so iterating sorted pairs is the same). -/
def sortByKey : List (Int × String) → List (Int × String)
  | [] => []
  | x :: xs => insertPair x (sortByKey xs)

/-- deflag_long_field (parseusn.py lines 467-476): collect the labels of the
keys whose bits intersect the value, in ascending key order, joined by a
semicolon separator. -/
def deflag_long_field (value : Int) (flags : List (Int × String)) : String :=
  String.intercalate "; "
    (((sortByKey flags).filter (fun kv => 0 < Int.land kv.1 value)).map (fun kv => kv.2))

/-- One step outcome of the scan loop in main (parseusn.py lines 155-281). -/
inductive Step where
  | stop
  | skip (next : Nat)
  | record (r : ChangeRecord) (next : Nat)
  | skipNone (next : Nat)
  | errSkip (next : Nat)
  | fatal
  deriving DecidableEq, Repr

/-- Frame and decode one record at position p with declared size rs: re-read
rs bytes, decode, and advance by rs on success, None, or caught struct.error;
an uncaught exception (the version-3 TypeError) aborts the scan. -/
def frame (src : List Nat) (p rs : Nat) : Step :=
  let d := (src.drop p).take rs
  match decode_USN_record d rs with
  | .ok r => .record r (p + rs)
  | .unrecognized => .skipNone (p + rs)
  | .structError => .errSkip (p + rs)
  | .typeError => .fatal

/-- Declared record length at position p: unpack_from of unsigned format I on
the 800-byte lookahead window. -/
def recordsizeAt (src : List Nat) (p : Nat) : Nat :=
  leNat (((src.drop p).take 800).take 4)

/-- One iteration of the scan loop of main (parseusn.py lines 155-198).
The source's guard recordsize < 0 can never fire because format I unpacks an
unsigned value; it is kept here as the literally dead Int comparison. -/
def step (src : List Nat) (p : Nat) : Step :=
  let data := (src.drop p).take 800
  if data.length < 60 then .stop
  else
    let rs := leNat (data.take 4)
    if (rs : Int) < 0 then .stop
    else if rs < 60 then
      let gapSize := (data.dropWhile (fun b => b = 0)).length
      if gapSize < 1 then .stop
      else if gapSize = 800 then .skip (p + 8)
      else if 800 - gapSize < 8 then frame src (p + 8) rs
      else .skip (Nat.land (p + 800 - gapSize) 0xfffffff8)
    else frame src p rs

/-- How the scan run ended. -/
inductive ScanEnd where
  | done
  | aborted
  | fuelOut
  deriving DecidableEq, Repr

/-- Accumulated result of a scan run. -/
structure ScanOut where
  recs : List ChangeRecord
  errs : List Nat
  outcome : ScanEnd
  deriving DecidableEq, Repr

/-- Drive the scan loop for at most fuel iterations from position p,
collecting decoded records and the offsets of caught decode errors. -/
def scanGo (src : List Nat) : Nat → Nat → List ChangeRecord → List Nat → ScanOut
  | 0, _, acc, errs => ⟨acc.reverse, errs.reverse, .fuelOut⟩
  | f + 1, p, acc, errs =>
    match step src p with
    | .stop => ⟨acc.reverse, errs.reverse, .done⟩
    | .skip q => scanGo src f q acc errs
    | .record r q => scanGo src f q (r :: acc) errs
    | .skipNone q => scanGo src f q acc errs
    | .errSkip q => scanGo src f q acc (p :: errs)
    | .fatal => ⟨acc.reverse, errs.reverse, .aborted⟩

/-- The advance a step makes, when the scan goes on: position of the next
iteration for every non-terminating step outcome. -/
def stepNextPos : Step → Option Nat
  | .stop => none
  | .fatal => none
  | .skip q => some q
  | .record _ q => some q
  | .skipNone q => some q
  | .errSkip q => some q

/-- First-match lookup in an association list, modelling a Python dict whose
keys are unique. -/
def dictGet {α : Type} : List (Int × α) → Int → Option α
  | [], _ => none
  | (k, v) :: rest, n => if n = k then some v else dictGet rest n

/-- The index built by parse_mft, as entries (file number, name, parent). -/
abbrev Index := List (Int × String × Int)

/-- The parent chain of a file number: i applications of the parent map. -/
def parentIter (idx : Index) (num : Int) : Nat → Option Int
  | 0 => some num
  | k + 1 =>
    match parentIter idx num k with
    | some v => (dictGet idx v).map (fun e => e.2)
    | none => none

/-- The parent-chain walk of parse_mft (parseusn.py lines 407-430) for one
file number, with the memo cache of previously resolved paths and fuel
standing in for the unbounded while loop (none means the loop was still
running when the fuel ran out, or an uncaught KeyError on the parent map). -/
def resolveWalk (idx : Index) (cache : List (Int × String)) :
    Nat → Int → String → Bool → Option String
  | fuel, num, path, first =>
    if num = 5 ∨ num = -1 then some path
    else
      match fuel with
      | 0 => none
      | fuel + 1 =>
        match dictGet idx num with
        | none => none
        | some (_, pnum) =>
          if pnum = 5 then some (".\\" ++ path)
          else if pnum = -1 then some ("NoParent\\" ++ path)
          else
            match dictGet cache pnum, first with
            | some q, true => some (q ++ "\\" ++ path)
            | _, _ =>
              match dictGet idx pnum with
              | some e => resolveWalk idx cache fuel pnum (e.1 ++ "\\" ++ path) false
              | none => some ("[ORPHAN]\\" ++ path)

/-- Path resolution for one file number exactly as parse_mft computes it
(parseusn.py lines 400-436): seed the path with the number's own name, walk
the parent chain, and finally override the result with "." for the root
number 5. -/
def resolve_path (idx : Index) (cache : List (Int × String)) (fuel : Nat)
    (mftnum : Int) : Option String :=
  match dictGet idx mftnum with
  | none => none
  | some e =>
    match resolveWalk idx cache fuel mftnum e.1 true with
    | none => none
    | some p => some (if mftnum = 5 then "." else p)

/-- A valid 60-byte version-2 record: declared length 60, major version 2,
mft reference 1, parent reference 5, reason 1, attributes 32, and an empty
filename at offset 60. -/
def rec60 : List Nat :=
  [60, 0, 0, 0, 2, 0, 0, 0,
   1, 0, 0, 0, 0, 0, 0, 0,
   5, 0, 0, 0, 0, 0, 0, 0,
   0, 0, 0, 0, 0, 0, 0, 0,
   0, 0, 0, 0, 0, 0, 0, 0,
   1, 0, 0, 0, 0, 0, 0, 0,
   0, 0, 0, 0, 32, 0, 0, 0,
   0, 0, 60, 0]

/-- The C1 source: 40 zero bytes, then the valid 60-byte record. -/
def src_c1 : List Nat := List.replicate 40 0 ++ rec60

/-- The C3 source: like rec60 but with declared length 0x80000000 (negative
when reinterpreted as a signed 32-bit integer). -/
def src_c3 : List Nat := [0, 0, 0, 128] ++ rec60.drop 4

/-- The C4 source: like rec60 but with declared length 100, exceeding the 60
available bytes, while every field including the filename slice still lies
inside the available data. -/
def src_c4 : List Nat := [100, 0, 0, 0] ++ rec60.drop 4

lemma pyIdx_nonneg_le (n : Nat) (i : Int) (h0 : 0 ≤ i) (h : i ≤ (n : Int)) :
    pyIdx n i = i.toNat := by
  unfold pyIdx
  rw [if_neg (by omega)]
  exact Nat.min_eq_left (by omega)

lemma pySlice_spec (d : List Nat) (a b : Int) (h0 : 0 ≤ a) (hab : a ≤ b)
    (hb : b ≤ (d.length : Int)) :
    pySlice d a b = (d.drop a.toNat).take (b.toNat - a.toNat) := by
  unfold pySlice
  rw [pyIdx_nonneg_le _ _ h0 (le_trans hab hb), pyIdx_nonneg_le _ _ (le_trans h0 hab) hb]

lemma pySlice_length (d : List Nat) (a b : Int) (h0 : 0 ≤ a) (hab : a ≤ b)
    (hb : b ≤ (d.length : Int)) :
    (pySlice d a b).length = b.toNat - a.toNat := by
  rw [pySlice_spec d a b h0 hab hb]
  simp only [List.length_take, List.length_drop]
  omega

lemma bytesAt_pos (d : List Nat) (a : Int) (len : Nat) (h0 : 0 ≤ a)
    (h : a + (len : Int) ≤ (d.length : Int)) :
    bytesAt d a len = some (pySlice d a (a + (len : Int))) := by
  unfold bytesAt
  rw [if_pos]
  rw [pySlice_length d a _ h0 (by omega) h]
  omega

lemma bytesAt_some (d : List Nat) (a : Int) (len : Nat) (s : List Nat)
    (h : bytesAt d a len = some s) : s = pySlice d a (a + (len : Int)) := by
  simp only [bytesAt] at h
  split at h
  · exact (Option.some.inj h).symm
  · exact absurd h (by simp)

/-- C2 counter-evidence: on every framed byte range long enough for the
version-3 header, the version-3 branch of decode_USN_record raises TypeError
(struct.unpack result indexed with [0] and then tuple-unpacked), so no
ChangeRecord composed of two 64-bit words is ever produced. -/
theorem c2_v3_decode_raises (d : List Nat) (size : Nat)
    (h24 : 24 ≤ d.length) (hmaj : i16le (pySlice d 4 6) = 3) :
    decode_USN_record d size = .typeError := by
  have e4 := bytesAt_pos d 4 2 (by norm_num) (by push_cast; omega)
  have e6 := bytesAt_pos d 6 2 (by norm_num) (by push_cast; omega)
  have e8 := bytesAt_pos d 8 16 (by norm_num) (by push_cast; omega)
  norm_num at e4 e6 e8
  unfold decode_USN_record decodeV3
  rw [e4, e6]
  simp only [req]
  rw [hmaj]
  norm_num
  rw [e8]

/-- C2 witness: a concrete 24-byte range with major version 3. -/
theorem c2_v3_decode_raises_witness :
    decode_USN_record
      [0, 0, 0, 0, 3, 0, 0, 0, 0, 0, 0, 0, 0, 0, 0, 0, 0, 0, 0, 0, 0, 0, 0, 0] 24 =
      .typeError :=
  c2_v3_decode_raises _ 24 (by decide) (by decide)

/-- C5: for every byte range of length at least 60 whose major version is 2
and whose embedded filename offset and length are non-negative and fit inside
the range, decode_USN_record is total and returns the fully populated record
read at the version-2 fixed offsets. -/
theorem c5_v2_decode_total (d : List Nat) (size : Nat)
    (hlen : 60 ≤ d.length)
    (hmaj : i16le (pySlice d 4 6) = 2)
    (hoff0 : 0 ≤ i16le (pySlice d 58 60))
    (hlen0 : 0 ≤ i16le (pySlice d 56 58))
    (hfit : i16le (pySlice d 58 60) + i16le (pySlice d 56 58) ≤ (d.length : Int)) :
    decode_USN_record d size = .ok {
      length := size
      major := 2
      minor := i16le (pySlice d 6 8)
      version := toString (2 : Int) ++ "." ++ toString (i16le (pySlice d 6 8))
      mft_ref := i32le ((pySlice d 8 14).take 4)
      mft_ref_seq := i16le (pySlice d 14 16)
      parent_ref := i32le ((pySlice d 16 22).take 4)
      parent_ref_seq := i16le (pySlice d 22 24)
      usn := i64le (pySlice d 24 32)
      time := hexChars (pySlice d 32 40).reverse
      reason := i32le (pySlice d 40 44)
      sourceinfo := i32le (pySlice d 44 48)
      securityid := i32le (pySlice d 48 52)
      file_attrib := i32le (pySlice d 52 56)
      filename_length := i16le (pySlice d 56 58)
      filename_offset := i16le (pySlice d 58 60)
      filename := pySlice d (i16le (pySlice d 58 60))
        (i16le (pySlice d 58 60) + i16le (pySlice d 56 58))
    } := by
  have e4 := bytesAt_pos d 4 2 (by norm_num) (by push_cast; omega)
  have e6 := bytesAt_pos d 6 2 (by norm_num) (by push_cast; omega)
  have e8 := bytesAt_pos d 8 6 (by norm_num) (by push_cast; omega)
  have e14 := bytesAt_pos d 14 2 (by norm_num) (by push_cast; omega)
  have e16 := bytesAt_pos d 16 6 (by norm_num) (by push_cast; omega)
  have e22 := bytesAt_pos d 22 2 (by norm_num) (by push_cast; omega)
  have e24 := bytesAt_pos d 24 8 (by norm_num) (by push_cast; omega)
  have e32 := bytesAt_pos d 32 8 (by norm_num) (by push_cast; omega)
  have e40 := bytesAt_pos d 40 4 (by norm_num) (by push_cast; omega)
  have e44 := bytesAt_pos d 44 4 (by norm_num) (by push_cast; omega)
  have e48 := bytesAt_pos d 48 4 (by norm_num) (by push_cast; omega)
  have e52 := bytesAt_pos d 52 4 (by norm_num) (by push_cast; omega)
  have e56 := bytesAt_pos d 56 2 (by norm_num) (by push_cast; omega)
  have e58 := bytesAt_pos d 58 2 (by norm_num) (by push_cast; omega)
  norm_num at e4 e6 e8 e14 e16 e22 e24 e32 e40 e44 e48 e52 e56 e58
  have efn : filenameBytes d (i16le (pySlice d 58 60)) (i16le (pySlice d 56 58)) =
      some (pySlice d (i16le (pySlice d 58 60))
        (i16le (pySlice d 58 60) + i16le (pySlice d 56 58))) := by
    unfold filenameBytes
    rw [if_neg (by omega)]
    rw [if_pos]
    rw [pySlice_length d _ _ hoff0 (by omega) hfit]
    omega
  unfold decode_USN_record decodeV2
  rw [e4, e6]
  simp only [req]
  rw [hmaj]
  norm_num
  rw [e8, e14, e16, e22, e24, e32, e40, e44, e48, e52, e56, e58]
  simp only [req]
  rw [efn]

/-- C5 witness: a concrete valid 60-byte version-2 record decodes to a
record. -/
theorem c5_v2_decode_total_witness :
    ∃ r, decode_USN_record rec60 60 = .ok r :=
  ⟨_, c5_v2_decode_total rec60 60 (by decide) (by decide) (by decide) (by decide)
    (by decide)⟩

lemma req_ne_typeError (o : Option (List Nat)) (k : List Nat → DecodeResult)
    (h : ∀ bs, k bs ≠ .typeError) : req o k ≠ .typeError := by
  cases o with
  | none => simp [req]
  | some bs => simpa [req] using h bs

lemma decodeV2_ne_typeError (d : List Nat) (size : Nat) (major minor : Int) :
    decodeV2 d size major minor ≠ .typeError := by
  unfold decodeV2
  iterate 13 (apply req_ne_typeError; intro _)
  simp

lemma decode_typeError_major (d : List Nat) (size : Nat)
    (h : decode_USN_record d size = .typeError) : i16le (pySlice d 4 6) = 3 := by
  unfold decode_USN_record at h
  cases h4 : bytesAt d 4 2 with
  | none => rw [h4] at h; simp [req] at h
  | some mj =>
    rw [h4] at h
    cases h6 : bytesAt d 6 2 with
    | none => rw [h6] at h; simp [req] at h
    | some mn =>
      rw [h6] at h
      simp only [req] at h
      by_cases hm2 : i16le mj = 2
      · rw [if_pos hm2] at h
        exact absurd h (decodeV2_ne_typeError _ _ _ _)
      · rw [if_neg hm2] at h
        by_cases hm3 : i16le mj = 3
        · have hmj := bytesAt_some d 4 2 mj h4
          norm_num at hmj
          rw [← hmj]
          exact hm3
        · rw [if_neg hm3] at h
          simp at h

/-- C4 counterexample: at offset 0 of src_c4 exactly 60 bytes remain while
the declared record length is 100, yet the scan decodes a record and reports
no truncated-record error; it still resumes at offset 0 + 100. -/
theorem c4_counterexample :
    src_c4.length = 60 ∧ recordsizeAt src_c4 0 = 100 ∧
      (scanGo src_c4 10 0 [] []).errs = [] ∧
      (scanGo src_c4 10 0 [] []).recs.length = 1 ∧
      (scanGo src_c4 10 0 [] []).outcome = .done ∧
      stepNextPos (step src_c4 0) = some 100 :=
  ⟨rfl, rfl, rfl, rfl, rfl, rfl⟩

/-- C4 as amended: at every scan position with at least 60 bytes in the
window whose declared record length is at least 60 and exceeds the available
bytes, and whose major-version field is not 3, the scan is non-fatal and
resumes at exactly offset + declared length; a decode error is reported only
when field extraction from the available bytes actually fails. -/
theorem c4_truncated_advance (src : List Nat) (p : Nat)
    (hwin : 60 ≤ ((src.drop p).take 800).length)
    (hrs : 60 ≤ recordsizeAt src p)
    (htrunc : src.length < p + recordsizeAt src p)
    (hmaj : i16le (pySlice ((src.drop p).take (recordsizeAt src p)) 4 6) ≠ 3) :
    stepNextPos (step src p) = some (p + recordsizeAt src p) := by
  unfold recordsizeAt at hrs hmaj ⊢
  simp only [step]
  rw [if_neg (by omega)]
  rw [if_neg (by omega)]
  rw [if_neg (by omega)]
  unfold frame
  dsimp only
  cases hdec : decode_USN_record ((src.drop p).take (leNat (((src.drop p).take 800).take 4)))
      (leNat (((src.drop p).take 800).take 4)) with
  | ok r => rfl
  | unrecognized => rfl
  | structError => rfl
  | typeError => exact absurd (decode_typeError_major _ _ hdec) hmaj

/-- C4 witness: the amended statement applied to the concrete truncated
source src_c4 at offset 0. -/
theorem c4_truncated_advance_witness :
    stepNextPos (step src_c4 0) = some (0 + recordsizeAt src_c4 0) :=
  c4_truncated_advance src_c4 0 (by decide) (by decide) (by decide) (by decide)

/-- C1: scanning 40 zero bytes followed by a valid 60-byte version-2 record
yields no decoded record at all: the gap arithmetic uses the 800-byte window
constant although only 100 bytes were read, so the scanner jumps from offset
0 to (0 + 800 - 60) rounded down to a multiple of 8 = 736, past the record at
offset 40, and then stops; the claimed single decoded record never appears. -/
theorem c1_gap_skips_record :
    step src_c1 0 = .skip 736 ∧ step src_c1 736 = .stop ∧
      scanGo src_c1 10 0 [] [] = ⟨[], [], .done⟩ :=
  ⟨rfl, rfl, rfl⟩

/-- C3: at a scan position whose declared 32-bit length is 0x80000000
(negative as a signed 32-bit integer) the scanner does not terminate there:
the unsigned unpack makes the recordsize-below-zero guard dead, so the
scanner frames and decodes one record and ends only after advancing past the
end of the source. -/
theorem c3_negative_length_not_terminating :
    recordsizeAt src_c3 0 = 2147483648 ∧
      (scanGo src_c3 10 0 [] []).recs.length = 1 ∧
      (scanGo src_c3 10 0 [] []).outcome = .done :=
  ⟨rfl, rfl, rfl⟩

/-- C6 counterexample: with an empty index, resolving file number 5 does not
return "."; parse_mft never creates a path for a number absent from the index
(the lookup raises KeyError), so the result is not independent of the index
content. -/
theorem c6_counterexample : resolve_path ([] : Index) [] 1 5 = none := rfl

/-- C6 as amended: whenever file number 5 has an entry in the index, its
resolved path is "." regardless of that entry's name and parent and of every
other entry, every cache, and any fuel. -/
theorem c6_root_resolves_dot (idx : Index) (cache : List (Int × String))
    (fuel : Nat) (e : String × Int) (h : dictGet idx 5 = some e) :
    resolve_path idx cache fuel 5 = some "." := by
  unfold resolve_path resolveWalk
  rw [h]
  simp

/-- C6 witness: a root entry with an arbitrary name and parent resolves
to ".". -/
theorem c6_root_resolves_dot_witness :
    resolve_path [((5 : Int), "SomeName", (7 : Int))] [] 0 5 = some "." :=
  c6_root_resolves_dot _ _ _ _ rfl

/-- C10: the reported filename never contains a NUL byte, and when the raw
filename has no double-NUL at all the find result is -1, so the slice drops
the final raw byte before the remaining NULs are deleted. -/
theorem c10_filename_scrub (fn : List Nat) :
    (∀ b ∈ deflag_item_filename fn, b ≠ 0) ∧
      (pyFind2 fn = -1 →
        deflag_item_filename fn =
          (fn.take (fn.length - 1)).filter (fun b => b ≠ 0)) := by
  constructor
  · intro b hb
    have := List.of_mem_filter hb
    simpa using this
  · intro h
    unfold deflag_item_filename
    rw [h]
    congr 1
    unfold pySlice pyIdx
    simp only [if_neg (by omega : ¬ (0 : Int) < 0), if_pos (by omega : (-1 : Int) < 0)]
    have h1 : (min ((0 : Int)).toNat fn.length) = 0 := by omega
    have h2 : (max ((fn.length : Int) + -1) 0).toNat = fn.length - 1 := by omega
    rw [h1, h2]
    simp

/-- C10 witness: a raw filename with no double NUL loses its final byte and
its interior NUL. -/
theorem c10_filename_scrub_witness :
    pyFind2 [65, 0, 66] = -1 ∧ deflag_item_filename [65, 0, 66] = [65] := by
  refine ⟨by decide, ?_⟩
  rw [(c10_filename_scrub [65, 0, 66]).2 (by decide)]
  decide

lemma hexVal_hexDigit : ∀ n < 16, hexVal (hexDigit n) = n := by decide

lemma hexChars_foldl (bs : List Nat) (hb : ∀ b ∈ bs, b < 256) : ∀ acc : Nat,
    List.foldl (fun acc c => 16 * acc + hexVal c) acc (hexChars bs) =
      List.foldl (fun acc b => 256 * acc + b) acc bs := by
  induction bs with
  | nil => intro acc; rfl
  | cons b bs ih =>
    intro acc
    have hblt : b < 256 := hb b (by simp)
    have hhi : hexVal (hexDigit (b / 16)) = b / 16 := hexVal_hexDigit _ (by omega)
    have hlo : hexVal (hexDigit (b % 16)) = b % 16 := hexVal_hexDigit _ (by omega)
    show List.foldl (fun acc c => 16 * acc + hexVal c)
      (16 * (16 * acc + hexVal (hexDigit (b / 16))) + hexVal (hexDigit (b % 16)))
      (hexChars bs) = _
    rw [hhi, hlo, ih (fun x hx => hb x (by simp [hx]))]
    have : 16 * (16 * acc + b / 16) + b % 16 = 256 * acc + b := by omega
    rw [this]
    rfl

/-- C9 counterexample: for tick value 1 the code yields a zero-microsecond
offset (exactly the epoch), while the claimed result, the epoch plus
ticks/10 = 1/10 microseconds, differs: conv_time rounds fractional
microseconds away rather than adding an exact ticks/10. -/
theorem c9_counterexample :
    conv_time_us (hexChars [0, 0, 0, 0, 0, 0, 0, 1]) = 0 ∧
      ¬ ((beNat [0, 0, 0, 0, 0, 0, 0, 1] : ℚ) / 10 =
        (conv_time_us (hexChars [0, 0, 0, 0, 0, 0, 0, 1]) : ℚ)) := by
  constructor
  · rfl
  · rw [show conv_time_us (hexChars [0, 0, 0, 0, 0, 0, 0, 1]) = 0 from rfl,
      show beNat [0, 0, 0, 0, 0, 0, 0, 1] = 1 from rfl]
    norm_num

/-- C9 as amended: the 8 raw bytes handed to conv_time are read as a
big-endian 100-nanosecond tick count (int of the hexlify string base 16),
and the conversion yields the 1601-01-01 epoch plus ticks/10 microseconds
rounded to the nearest whole microsecond, half away from zero; in particular
tick value 0 yields exactly the epoch (offset 0). -/
theorem c9_time_conversion (bs : List Nat) (hlen : bs.length = 8)
    (hb : ∀ b ∈ bs, b < 256) :
    hexToNat (hexChars bs) = beNat bs ∧
      conv_time_us (hexChars bs) = (beNat bs + 5) / 10 ∧
      (beNat bs = 0 → conv_time_us (hexChars bs) = 0) := by
  have hfold := hexChars_foldl bs hb 0
  refine ⟨hfold, ?_, ?_⟩
  · unfold conv_time_us hexToNat
    rw [hfold]
    rfl
  · intro h0
    unfold conv_time_us hexToNat
    rw [hfold]
    show (beNat bs + 5) / 10 = 0
    omega

/-- C9 witness: the all-zero tick bytes land exactly on the epoch. -/
theorem c9_time_conversion_witness :
    hexToNat (hexChars [0, 0, 0, 0, 0, 0, 0, 0]) = beNat [0, 0, 0, 0, 0, 0, 0, 0] ∧
      conv_time_us (hexChars [0, 0, 0, 0, 0, 0, 0, 0]) = 0 := by
  have h := c9_time_conversion [0, 0, 0, 0, 0, 0, 0, 0] (by decide) (by decide)
  exact ⟨h.1, h.2.2 (by decide)⟩

set_option maxHeartbeats 1000000 in
/-- C8: for every two distinct entries of the reason-flag table whose OR is
not itself a key, deflag_long_field on the OR returns exactly the two labels
joined by a semicolon separator in ascending key order, and the result does
not depend on the order in which the two keys were OR-ed. -/
theorem c8_two_flag_or :
    ∀ kv ∈ FLAGS_SHORT, ∀ kw ∈ FLAGS_SHORT,
      kv.1 < kw.1 → Int.lor kv.1 kw.1 ∉ FLAGS_SHORT.map Prod.fst →
      deflag_long_field (Int.lor kv.1 kw.1) FLAGS_SHORT = kv.2 ++ "; " ++ kw.2 ∧
        deflag_long_field (Int.lor kw.1 kv.1) FLAGS_SHORT = kv.2 ++ "; " ++ kw.2 := by
  decide

/-- C8 witness: OR of the data-overwritten and data-appended flags in either
order yields both labels in ascending order. -/
theorem c8_two_flag_or_witness :
    deflag_long_field (Int.lor 1 2) FLAGS_SHORT =
        "data_overwritten" ++ "; " ++ "data_appended" ∧
      deflag_long_field (Int.lor 2 1) FLAGS_SHORT =
        "data_overwritten" ++ "; " ++ "data_appended" :=
  c8_two_flag_or (1, "data_overwritten") (by decide) (2, "data_appended")
    (by decide) (by decide) (by decide)

lemma string_append_assoc (a b c : String) : (a ++ b) ++ c = a ++ (b ++ c) := by
  cases a with
  | mk la =>
    cases b with
    | mk lb =>
      cases c with
      | mk lc =>
        show String.mk ((la ++ lb) ++ lc) = String.mk (la ++ (lb ++ lc))
        rw [List.append_assoc]

/-- An optional resolver result carrying the orphan marker at its front. -/
def hasOrphanMark (o : Option String) : Prop :=
  ∃ s, o = some ("[ORPHAN]\\" ++ s)

lemma dictGet_isSome_mem {α : Type} (idx : List (Int × α)) (n : Int)
    (h : (dictGet idx n).isSome) : n ∈ idx.map Prod.fst := by
  induction idx with
  | nil => simp [dictGet] at h
  | cons kv rest ih =>
    cases kv with
    | mk k v =>
      simp only [dictGet] at h
      by_cases hk : n = k
      · simp [hk]
      · rw [if_neg hk] at h
        simp [ih h]

lemma parentIter_one (idx : Index) (num : Int) (e : String × Int)
    (h : dictGet idx num = some e) : parentIter idx num 1 = some e.2 := by
  simp [parentIter, h]

lemma parentIter_shift (idx : Index) (num pnum : Int)
    (h : parentIter idx num 1 = some pnum) :
    ∀ k, parentIter idx pnum k = parentIter idx num (k + 1) := by
  intro k
  induction k with
  | zero => simpa [parentIter] using h.symm
  | succ k ih =>
    show (match parentIter idx pnum k with
      | some v => (dictGet idx v).map (fun e : String × Int => e.2)
      | none => none) = _
    rw [ih]
    rfl

lemma resolveWalk_orphan (idx : Index) (cache : List (Int × String)) :
    ∀ (K fuel : Nat) (num : Int) (path : String) (first : Bool),
    1 ≤ K → K ≤ fuel →
    (∀ k, k < K → ∃ v, parentIter idx num k = some v ∧ (dictGet idx v).isSome) →
    (∃ w, parentIter idx num K = some w ∧ dictGet idx w = none) →
    (∀ k, k ≤ K → parentIter idx num k ≠ some 5 ∧ parentIter idx num k ≠ some (-1)) →
    (first = true → ∀ p q, parentIter idx num 1 = some p → dictGet cache p = some q →
      ∃ s, q = "[ORPHAN]\\" ++ s) →
    hasOrphanMark (resolveWalk idx cache fuel num path first) := by
  intro K
  induction K with
  | zero => intro fuel num path first h1; omega
  | succ K ih =>
    intro fuel num path first h1 hfuel hin hout h5 hc
    obtain ⟨v0, hv0, hv0some⟩ := hin 0 (by omega)
    have hv0num : v0 = num := by simpa [parentIter] using hv0.symm
    subst hv0num
    obtain ⟨e, he⟩ := Option.isSome_iff_exists.mp hv0some
    have hnum5 : v0 ≠ 5 := by
      intro hh
      exact (h5 0 (by omega)).1 (by simp [parentIter, hh])
    have hnumm1 : v0 ≠ -1 := by
      intro hh
      exact (h5 0 (by omega)).2 (by simp [parentIter, hh])
    obtain ⟨f, rfl⟩ : ∃ f, fuel = f + 1 := ⟨fuel - 1, by omega⟩
    have hp1 : parentIter idx v0 1 = some e.2 := parentIter_one idx v0 e he
    have hp5 : e.2 ≠ 5 := by
      intro hh
      exact (h5 1 (by omega)).1 (by rw [hp1, hh])
    have hpm1 : e.2 ≠ -1 := by
      intro hh
      exact (h5 1 (by omega)).2 (by rw [hp1, hh])
    show hasOrphanMark (resolveWalk idx cache (f + 1) v0 path first)
    rw [resolveWalk]
    rw [if_neg (by simp [hnum5, hnumm1])]
    rw [he]
    simp only
    rw [if_neg hp5, if_neg hpm1]
    cases hcc : dictGet cache e.2 with
    | some q =>
      cases first with
      | true =>
        obtain ⟨s, hq⟩ := hc rfl e.2 q hp1 hcc
        refine ⟨s ++ ("\\" ++ path), ?_⟩
        dsimp only
        rw [hq]
        exact congrArg some
          ((string_append_assoc ("[ORPHAN]\\" ++ s) "\\" path).trans
            (string_append_assoc "[ORPHAN]\\" s ("\\" ++ path)))
      | false =>
        cases hpn : dictGet idx e.2 with
        | none => exact ⟨path, rfl⟩
        | some e2 =>
          have hK1 : 1 ≤ K := by
            rcases Nat.eq_zero_or_pos K with h0 | h
            · exfalso
              subst h0
              obtain ⟨w, hw, hwnone⟩ := hout
              rw [hp1] at hw
              have : e.2 = w := by injection hw
              rw [← this, hpn] at hwnone
              cases hwnone
            · exact h
          have hshift := parentIter_shift idx v0 e.2 hp1
          apply ih f e.2 (e2.1 ++ "\\" ++ path) false hK1 (by omega)
          · intro k hk
            rw [hshift k]
            exact hin (k + 1) (by omega)
          · obtain ⟨w, hw, hwn⟩ := hout
            exact ⟨w, by rw [hshift K]; exact hw, hwn⟩
          · intro k hk
            rw [hshift k]
            exact h5 (k + 1) (by omega)
          · intro hff
            cases hff
    | none =>
      cases hpn : dictGet idx e.2 with
      | none =>
        cases first <;> exact ⟨path, rfl⟩
      | some e2 =>
        have hK1 : 1 ≤ K := by
          rcases Nat.eq_zero_or_pos K with h0 | h
          · exfalso
            subst h0
            obtain ⟨w, hw, hwnone⟩ := hout
            rw [hp1] at hw
            have : e.2 = w := by injection hw
            rw [← this, hpn] at hwnone
            cases hwnone
          · exact h
        have hshift := parentIter_shift idx v0 e.2 hp1
        have happ : ∀ fst : Bool,
            hasOrphanMark (resolveWalk idx cache f e.2 (e2.1 ++ "\\" ++ path) false) := by
          intro _
          apply ih f e.2 (e2.1 ++ "\\" ++ path) false hK1 (by omega)
          · intro k hk
            rw [hshift k]
            exact hin (k + 1) (by omega)
          · obtain ⟨w, hw, hwn⟩ := hout
            exact ⟨w, by rw [hshift K]; exact hw, hwn⟩
          · intro k hk
            rw [hshift k]
            exact h5 (k + 1) (by omega)
          · intro hff
            cases hff
        cases first <;> exact happ true

/-- C7: for every file number with an index entry whose parent chain never
reaches 5 or -1 and contains no cycle (within the only horizon the finite
index allows), and given a memo cache whose entry for the first parent, if
any, is itself orphan-marked (as every cache entry produced for such a chain
is; in particular the empty cache of a fresh resolver), path resolution
terminates within index-length + 1 parent steps and returns a path carrying
the orphan marker introduced at the first missing index entry on the chain. -/
theorem c7_orphan_chain_terminates (idx : Index) (cache : List (Int × String))
    (num : Int)
    (hmem : (dictGet idx num).isSome)
    (h5 : ∀ i, i ≤ idx.length + 1 →
      parentIter idx num i ≠ some 5 ∧ parentIter idx num i ≠ some (-1))
    (hnc : ∀ i j, i ≤ idx.length + 1 → j ≤ idx.length + 1 → i < j →
      parentIter idx num i = parentIter idx num j → parentIter idx num i = none)
    (hcache : ∀ p q, parentIter idx num 1 = some p → dictGet cache p = some q →
      ∃ s, q = "[ORPHAN]\\" ++ s) :
    hasOrphanMark (resolve_path idx cache (idx.length + 1) num) := by
  classical
  have hescape : ∃ k, k ≤ idx.length ∧
      ∃ w, parentIter idx num k = some w ∧ dictGet idx w = none := by
    by_contra hno
    push_neg at hno
    have hdef : ∀ k, k ≤ idx.length →
        ∃ v, parentIter idx num k = some v ∧ (dictGet idx v).isSome := by
      intro k
      induction k with
      | zero => intro _; exact ⟨num, by simp [parentIter], hmem⟩
      | succ k ihk =>
        intro hk
        obtain ⟨v, hv, hvs⟩ := ihk (by omega)
        obtain ⟨e, he⟩ := Option.isSome_iff_exists.mp hvs
        have hnext : parentIter idx num (k + 1) = some e.2 := by
          simp [parentIter, hv, he]
        refine ⟨e.2, hnext, ?_⟩
        have := hno (k + 1) hk e.2 hnext
        exact Option.ne_none_iff_isSome.mp this
    let f : Fin (idx.length + 1) → Int := fun i => (parentIter idx num i).getD 0
    have hf : ∀ i : Fin (idx.length + 1),
        parentIter idx num i = some (f i) ∧ (dictGet idx (f i)).isSome := by
      intro i
      obtain ⟨v, hv, hvs⟩ := hdef i (by omega)
      have : f i = v := by simp [f, hv]
      rw [this]
      exact ⟨hv, hvs⟩
    have hinj : Function.Injective f := by
      intro i j hij
      by_contra hne
      have hvne : (i : Nat) ≠ (j : Nat) := fun hh => hne (Fin.ext hh)
      rcases Nat.lt_or_ge (i : Nat) (j : Nat) with hlt | hge
      · have heq : parentIter idx num i = parentIter idx num j := by
          rw [(hf i).1, (hf j).1, hij]
        have := hnc i j (by omega) (by omega) hlt heq
        rw [(hf i).1] at this
        cases this
      · have hlt : (j : Nat) < (i : Nat) := by omega
        have heq : parentIter idx num j = parentIter idx num i := by
          rw [(hf i).1, (hf j).1, hij]
        have := hnc j i (by omega) (by omega) hlt heq
        rw [(hf j).1] at this
        cases this
    have hcard : idx.length + 1 ≤ idx.length := by
      have h1 : (Finset.univ : Finset (Fin (idx.length + 1))).card ≤
          (idx.map Prod.fst).toFinset.card := by
        apply Finset.card_le_card_of_injOn f
        · intro i _
          exact List.mem_toFinset.mpr (dictGet_isSome_mem idx (f i) (hf i).2)
        · exact fun a _ b _ hab => hinj hab
      have h2 : (idx.map Prod.fst).toFinset.card ≤ (idx.map Prod.fst).length :=
        (idx.map Prod.fst).toFinset_card_le
      simp only [Finset.card_univ, Fintype.card_fin, List.length_map] at h1 h2
      omega
    omega
  obtain ⟨k0, hk0L, hk0⟩ := hescape
  have hPex : ∃ k, ∃ w, parentIter idx num k = some w ∧ dictGet idx w = none := ⟨k0, hk0⟩
  have hKP := Nat.find_spec hPex
  have hKle : Nat.find hPex ≤ idx.length := le_trans (Nat.find_min' hPex hk0) hk0L
  have hK1 : 1 ≤ Nat.find hPex := by
    rcases Nat.eq_zero_or_pos (Nat.find hPex) with h0 | h
    · exfalso
      rw [h0] at hKP
      obtain ⟨w, hw, hwn⟩ := hKP
      have hwnum : num = w := by simpa [parentIter] using hw
      rw [← hwnum] at hwn
      rw [hwn] at hmem
      simp at hmem
    · exact h
  have hin : ∀ k, k < Nat.find hPex →
      ∃ v, parentIter idx num k = some v ∧ (dictGet idx v).isSome := by
    intro k
    induction k with
    | zero => intro _; exact ⟨num, by simp [parentIter], hmem⟩
    | succ k ihk =>
      intro hk
      obtain ⟨v, hv, hvs⟩ := ihk (by omega)
      obtain ⟨e, he⟩ := Option.isSome_iff_exists.mp hvs
      have hnext : parentIter idx num (k + 1) = some e.2 := by
        simp [parentIter, hv, he]
      refine ⟨e.2, hnext, ?_⟩
      by_contra hn
      exact Nat.find_min hPex hk ⟨e.2, hnext, Option.not_isSome_iff_eq_none.mp hn⟩
  obtain ⟨e, he⟩ := Option.isSome_iff_exists.mp hmem
  have hwalk := resolveWalk_orphan idx cache (Nat.find hPex) (idx.length + 1) num e.1
    true hK1 (by omega) hin hKP
    (fun k hk => h5 k (by omega)) (fun _ => hcache)
  unfold resolve_path
  rw [he]
  dsimp only
  obtain ⟨s, hs⟩ := hwalk
  rw [hs]
  dsimp only
  have hnum5 : num ≠ 5 := by
    intro hh
    exact (h5 0 (by omega)).1 (by simp [parentIter, hh])
  rw [if_neg hnum5]
  exact ⟨s, rfl⟩

/-- C7 witness: in the two-entry index 10 -> parent 20 -> parent 30, where 30
has no entry and the chain never meets 5 or -1, resolution with a fresh cache
terminates with an orphan-marked path. -/
theorem c7_orphan_chain_terminates_witness :
    hasOrphanMark
      (resolve_path [((10 : Int), "a", (20 : Int)), ((20 : Int), "b", (30 : Int))]
        [] 3 10) := by
  apply c7_orphan_chain_terminates
  · decide
  · decide
  · intro i j hi hj hij
    simp only [List.length_cons, List.length_nil] at hi hj
    interval_cases i <;> interval_cases j <;> first
      | omega
      | decide
  · intro p q h1 h2
    simp [dictGet] at h2

end ParseUSN
